import Mathlib

/-!
Verification of the easyClean unused-asset detection engine.

The definitions below are a shallow embedding of the Go sources:
`internal/classifier/classifier.go`, `internal/scanner/reference_finder.go`,
`internal/scanner/asset_finder.go`, `internal/scanner/common.go`,
`internal/parser/patterns.go`, `internal/detector` (project-type detection),
`internal/config/loader.go`, `internal/config/defaults.go` and
`cmd/easyClean/commands/scan.go`.  Go strings are modelled by `String`
(manipulated through `List Char` so that concrete evaluation is by kernel
reduction), Go slices by `List`, Go maps by association lists (a Go map's
iteration order is unspecified, which some theorems below interrogate), and
`float32` confidence scores, on which the code never computes, by their
exact value in hundredths.
The filesystem is modelled by the explicit structure `Fsys`: its `files`
list is assumed to be in the lexical depth-first order in which
`filepath.WalkDir` visits regular files.
-/

namespace EasyClean

/-- models.AssetStatus (internal/models/asset.go). -/
inductive AssetStatus
| Used
| Unused
| PotentiallyUnused
| NeedsManualReview
deriving DecidableEq, Repr

/-- models.ReferenceType (internal/models/reference.go). -/
inductive ReferenceType
| Import
| StringLiteral
| TemplateLiteral
| CSSUrl
| HTMLAttribute
| Constant
| FunctionCall
| Config
deriving DecidableEq, Repr

/-- models.Reference (internal/models/reference.go); the fields the engine
reads.  `confidence` is the float32 score in hundredths (1.0 is 100, 0.95
is 95, 0.8 is 80): the code only ever stores and copies it, so the scaled
integer embedding is exact. -/
structure Reference where
  sourceFile : String
  lineNumber : Nat
  matchedText : String
  context : String
  type : ReferenceType
  confidence : Nat
  isComment : Bool
  isDynamic : Bool
deriving DecidableEq, Repr

/-- models.AssetFile (internal/models/asset.go); the fields the engine reads. -/
structure AssetFile where
  path : String
  relativePath : String
  name : String
  extension : String
  references : List Reference
  refCount : Nat
  status : AssetStatus
deriving DecidableEq, Repr

/-- One iteration of the loop in ClassifyAsset (classifier.go): the
accumulator is (hasActiveRef, allInComments, hasDynamicRef), initialised to
(false, true, false). -/
def classifyStep (acc : Bool × Bool × Bool) (ref : Reference) : Bool × Bool × Bool :=
  (acc.1 || !ref.isComment, acc.2.1 && ref.isComment, acc.2.2 || ref.isDynamic)

/-- classifier.ClassifyAsset (internal/classifier/classifier.go). -/
def ClassifyAsset (asset : AssetFile) : AssetStatus :=
  if asset.references.length = 0 then AssetStatus.Unused
  else
    let flags := asset.references.foldl classifyStep (false, true, false)
    if flags.2.2 then AssetStatus.NeedsManualReview
    else if flags.2.1 then AssetStatus.PotentiallyUnused
    else if flags.1 then AssetStatus.Used
    else AssetStatus.Unused

/-- classifier.ClassifyAssets (internal/classifier/classifier.go). -/
def ClassifyAssets (assets : List AssetFile) : List AssetFile :=
  assets.map (fun a => { a with status := ClassifyAsset a })

theorem foldl_classifyStep (l : List Reference) (a b c : Bool) :
    l.foldl classifyStep (a, b, c) =
      (a || l.any (fun r => !r.isComment),
       b && l.all (fun r => r.isComment),
       c || l.any (fun r => r.isDynamic)) := by
  induction l generalizing a b c with
  | nil => simp
  | cons r rest ih =>
      simp [List.foldl_cons, classifyStep, ih, Bool.or_assoc, Bool.and_assoc]

/-- C1: the classification table of ClassifyAsset: any dynamic reference
forces NeedsManualReview; the status is Unused exactly when there are no
references; a nonempty, dynamic-free, all-in-comment reference set gives
PotentiallyUnused; a nonempty, dynamic-free set with a non-comment
reference gives Used. -/
theorem classifyAsset_table (asset : AssetFile) :
    ((∃ r ∈ asset.references, r.isDynamic = true) →
        ClassifyAsset asset = AssetStatus.NeedsManualReview) ∧
    (ClassifyAsset asset = AssetStatus.Unused ↔ asset.references = []) ∧
    ((asset.references ≠ [] ∧ (∀ r ∈ asset.references, r.isDynamic = false) ∧
        (∀ r ∈ asset.references, r.isComment = true)) →
        ClassifyAsset asset = AssetStatus.PotentiallyUnused) ∧
    ((asset.references ≠ [] ∧ (∀ r ∈ asset.references, r.isDynamic = false) ∧
        (∃ r ∈ asset.references, r.isComment = false)) →
        ClassifyAsset asset = AssetStatus.Used) := by
  unfold ClassifyAsset
  rcases h : asset.references with _ | ⟨r, rest⟩
  · simp
  · rw [foldl_classifyStep]
    constructor
    · intro ⟨x, hx, hdyn⟩
      have hany : (r :: rest).any (fun r => r.isDynamic) = true :=
        List.any_eq_true.mpr ⟨x, hx, hdyn⟩
      simp [hany]
    constructor
    · constructor
      · intro hres
        by_cases hdyn : (r :: rest).any (fun r => r.isDynamic) = true
        · simp [hdyn] at hres
        · rw [Bool.not_eq_true] at hdyn
          by_cases hall : (r :: rest).all (fun r => r.isComment) = true
          · simp [hdyn, hall] at hres
          · rw [Bool.not_eq_true] at hall
            have : ∃ x ∈ r :: rest, ¬ x.isComment = true := by
              by_contra hc
              push_neg at hc
              exact absurd (List.all_eq_true.mpr hc) (by simp [hall])
            obtain ⟨x, hx, hxc⟩ := this
            have hact : (r :: rest).any (fun r => !r.isComment) = true :=
              List.any_eq_true.mpr ⟨x, hx, by simp [Bool.not_eq_true] at hxc ⊢; exact hxc⟩
            simp [hdyn, hall, hact] at hres
      · intro hc
        exact absurd hc (by simp)
    constructor
    · intro ⟨_, hnd, hac⟩
      have hdyn : (r :: rest).any (fun r => r.isDynamic) = false := by
        rw [← Bool.not_eq_true, List.any_eq_true]
        rintro ⟨x, hx, hxd⟩
        rw [hnd x hx] at hxd
        exact Bool.false_ne_true hxd
      have hall : (r :: rest).all (fun r => r.isComment) = true :=
        List.all_eq_true.mpr hac
      simp [hdyn, hall]
    · intro ⟨_, hnd, x, hx, hxc⟩
      have hdyn : (r :: rest).any (fun r => r.isDynamic) = false := by
        rw [← Bool.not_eq_true, List.any_eq_true]
        rintro ⟨y, hy, hyd⟩
        rw [hnd y hy] at hyd
        exact Bool.false_ne_true hyd
      have hall : (r :: rest).all (fun r => r.isComment) = false := by
        rw [← Bool.not_eq_true, List.all_eq_true]
        intro hc
        rw [hc x hx] at hxc
        exact Bool.noConfusion hxc
      have hact : (r :: rest).any (fun r => !r.isComment) = true :=
        List.any_eq_true.mpr ⟨x, hx, by simp [hxc]⟩
      simp [hdyn, hall, hact]

/-- A dynamic, non-comment reference, for concrete checks. -/
def refDynW : Reference :=
  { sourceFile := "s.js", lineNumber := 1, matchedText := "./x/l.png",
    context := "ignored", type := ReferenceType.Import, confidence := 100,
    isComment := false, isDynamic := true }

/-- A plain non-comment, non-dynamic reference, for concrete checks. -/
def refUseW : Reference :=
  { sourceFile := "t.js", lineNumber := 2, matchedText := "/l.png",
    context := "ignored", type := ReferenceType.StringLiteral,
    confidence := 80, isComment := false, isDynamic := false }

/-- An in-comment, non-dynamic reference, for concrete checks. -/
def refComW : Reference :=
  { sourceFile := "u.js", lineNumber := 3, matchedText := "l.png",
    context := "ignored", type := ReferenceType.StringLiteral,
    confidence := 80, isComment := true, isDynamic := false }

/-- An asset holding one dynamic reference, for concrete checks. -/
def assetDynW : AssetFile :=
  { path := "r/x/l.png", relativePath := "x/l.png", name := "l.png",
    extension := ".png", references := [refDynW], refCount := 1,
    status := AssetStatus.Unused }

/-- Witness for `classifyAsset_table`: on an asset with a single dynamic
reference the dynamic clause fires and yields NeedsManualReview. -/
theorem classifyAsset_table_witness :
    ClassifyAsset assetDynW = AssetStatus.NeedsManualReview :=
  (classifyAsset_table assetDynW).1 ⟨refDynW, by decide, by decide⟩

/-- String concatenation through character lists (so that concrete
evaluation is by kernel reduction). -/
def strCat (a b : String) : String :=
  String.mk (a.toList ++ b.toList)

/-- Go strings.HasPrefix. -/
def strStarts (s pre : String) : Bool :=
  pre.toList.isPrefixOf s.toList

/-- Go strings.HasSuffix. -/
def strEnds (s suf : String) : Bool :=
  suf.toList.isSuffixOf s.toList

/-- Drop the first n characters of a string. -/
def strDropN (s : String) (n : Nat) : String :=
  String.mk (s.toList.drop n)

/-- String length as a character count (all modelled paths are ASCII, so
this agrees with Go's byte length). -/
def strLen (s : String) : Nat :=
  s.toList.length

/-- Go strings.Join. -/
def joinSep (sep : String) : List String → String
  | [] => ""
  | [x] => x
  | x :: rest => strCat x (strCat sep (joinSep sep rest))

/-- Go `len(s) > 0 && len(t) >= len(s) && t[len(t)-len(s):] == s`: the
suffix test used twice in matchesAssetPath (classifier.go). -/
def goSuffixTest (t s : String) : Bool :=
  decide (0 < strLen s) && decide (strLen s ≤ strLen t)
    && (strDropN t (strLen t - strLen s) == s)

/-- classifier.matchesAssetPath (internal/classifier/classifier.go). -/
def matchesAssetPath (asset : AssetFile) (refPath : String) : Bool :=
  asset.path == refPath || asset.relativePath == refPath || asset.name == refPath
    || goSuffixTest asset.path refPath
    || goSuffixTest asset.relativePath refPath

/-- One asset's pass of the loop in MatchReferencesToAssets: `range` over
the reference map with `break` at the first matching key, appending that
key's references and caching the count.  The Go map is modelled by an
association list whose order stands for the (unspecified) iteration
order. -/
def attachRefs (asset : AssetFile) (refsMap : List (String × List Reference)) : AssetFile :=
  match refsMap.find? (fun kv => matchesAssetPath asset kv.1) with
  | some kv =>
      { asset with
        references := asset.references ++ kv.2,
        refCount := (asset.references ++ kv.2).length }
  | none => asset

/-- classifier.MatchReferencesToAssets (internal/classifier/classifier.go). -/
def MatchReferencesToAssets (assets : List AssetFile)
    (refsMap : List (String × List Reference)) : List AssetFile :=
  assets.map (fun a => attachRefs a refsMap)

/-- C10: starting from freshly discovered assets (empty reference list,
zero cached count), after MatchReferencesToAssets every asset's references
are exactly one key group of the map (or none), and the cached count equals
the length of the attached list. -/
theorem matchRefs_single_group (assets : List AssetFile)
    (refsMap : List (String × List Reference))
    (h : ∀ a ∈ assets, a.references = [] ∧ a.refCount = 0) :
    ∀ a' ∈ MatchReferencesToAssets assets refsMap,
      a'.refCount = a'.references.length ∧
      (a'.references = [] ∨ ∃ kv ∈ refsMap, a'.references = kv.2) := by
  intro a' ha'
  obtain ⟨a, ha, rfl⟩ := List.mem_map.mp ha'
  obtain ⟨hrefs, hcount⟩ := h a ha
  unfold attachRefs
  rcases hfind : refsMap.find? (fun kv => matchesAssetPath a kv.1) with _ | kv
  · simp only [hfind]
    refine ⟨?_, Or.inl hrefs⟩
    rw [hcount, hrefs]
    rfl
  · simp only [hfind]
    refine ⟨by trivial, Or.inr ⟨kv, List.mem_of_find?_eq_some hfind, ?_⟩⟩
    simp [hrefs]

/-- A fresh (pre-matching) asset for concrete checks: the FindAssets output
shape for file r/x/l.png. -/
def assetFreshW : AssetFile :=
  { path := "r/x/l.png", relativePath := "x/l.png", name := "l.png",
    extension := ".png", references := [], refCount := 0,
    status := AssetStatus.Unused }

/-- A concrete two-entry reference map, for concrete checks. -/
def refsMapW : List (String × List Reference) :=
  [("r/x/l.png", [refDynW]), ("l.png", [refUseW])]

/-- Witness for `matchRefs_single_group` at a concrete asset and a
two-entry reference map. -/
theorem matchRefs_single_group_witness :
    (attachRefs assetFreshW refsMapW).refCount =
      (attachRefs assetFreshW refsMapW).references.length ∧
    ((attachRefs assetFreshW refsMapW).references = [] ∨
      ∃ kv ∈ refsMapW, (attachRefs assetFreshW refsMapW).references = kv.2) :=
  matchRefs_single_group [assetFreshW] refsMapW
    (by intro a ha; simp at ha; simp [ha, assetFreshW])
    (attachRefs assetFreshW refsMapW)
    (by simp [MatchReferencesToAssets])

set_option maxRecDepth 10000

/-- C9 counterexample: the same asset and the same reference map presented
in two iteration orders (a permutation) classify differently, because
MatchReferencesToAssets stops at the first matching key.  The asset at
r/x/l.png matches the key "r/x/l.png" by path and the key "l.png" by name;
one order attaches the dynamic reference (NeedsManualReview), the other the
plain reference (Used). -/
theorem classify_map_order_dependent :
    (([("r/x/l.png", [refDynW]), ("l.png", [refUseW])] :
        List (String × List Reference)).Perm
      [("l.png", [refUseW]), ("r/x/l.png", [refDynW])]) ∧
    (ClassifyAssets (MatchReferencesToAssets [assetFreshW]
        [("r/x/l.png", [refDynW]), ("l.png", [refUseW])])).map
          (fun a => a.status)
      = [AssetStatus.NeedsManualReview] ∧
    (ClassifyAssets (MatchReferencesToAssets [assetFreshW]
        [("l.png", [refUseW]), ("r/x/l.png", [refDynW])])).map
          (fun a => a.status)
      = [AssetStatus.Used] := by
  refine ⟨List.Perm.swap _ _ _, by decide, by decide⟩

theorem perm_any_eq {α : Type} (p : α → Bool) {l₁ l₂ : List α}
    (hp : l₁.Perm l₂) : l₁.any p = l₂.any p := by
  cases h₂ : l₂.any p
  · cases h₁ : l₁.any p
    · rfl
    · obtain ⟨x, hx, hpx⟩ := List.any_eq_true.mp h₁
      have : l₂.any p = true := List.any_eq_true.mpr ⟨x, hp.mem_iff.mp hx, hpx⟩
      rw [this] at h₂
      exact absurd h₂ (by simp)
  · obtain ⟨x, hx, hpx⟩ := List.any_eq_true.mp h₂
    exact List.any_eq_true.mpr ⟨x, hp.mem_iff.mpr hx, hpx⟩

theorem perm_all_eq {α : Type} (p : α → Bool) {l₁ l₂ : List α}
    (hp : l₁.Perm l₂) : l₁.all p = l₂.all p := by
  have h₁ : l₁.all p = !l₁.any (fun x => !p x) := by
    simp [List.all_eq_not_any_not]
  have h₂ : l₂.all p = !l₂.any (fun x => !p x) := by
    simp [List.all_eq_not_any_not]
  rw [h₁, h₂, perm_any_eq _ hp]

theorem find?_eq_head?_filter {α : Type} (p : α → Bool) (l : List α) :
    l.find? p = (l.filter p).head? := by
  induction l with
  | nil => rfl
  | cons x xs ih =>
      cases hx : p x
      · rw [List.find?_cons_of_neg _ (by simp [hx]),
          List.filter_cons_of_neg (by simp [hx]), ih]
      · rw [List.find?_cons_of_pos _ hx,
          List.filter_cons_of_pos (by simp [hx]), List.head?_cons]

theorem find?_perm_of_subsingleton {α : Type} (p : α → Bool)
    {l₁ l₂ : List α} (hp : l₁.Perm l₂) (hs : (l₁.filter p).length ≤ 1) :
    l₁.find? p = l₂.find? p := by
  rw [find?_eq_head?_filter, find?_eq_head?_filter]
  have hperm : (l₁.filter p).Perm (l₂.filter p) := hp.filter p
  rcases hf : l₁.filter p with _ | ⟨x, rest⟩
  · rw [hf] at hperm
    rw [List.Perm.nil_eq hperm]
  · rw [hf] at hperm hs
    have hrest : rest = [] := by
      cases rest with
      | nil => rfl
      | cons y ys => simp at hs
    subst hrest
    rw [List.singleton_perm.mp hperm]

/-- C9 amended: classification is order-insensitive where the code makes it
so.  (a) ClassifyAsset is invariant under permutation of the attached
references.  (b) When every asset matches at most one key group of the
harvested reference map, the statuses after matching and classifying do not
depend on the map's iteration order. -/
theorem classify_deterministic_cases :
    (∀ (a : AssetFile) (l₁ l₂ : List Reference), l₁.Perm l₂ →
      ClassifyAsset { a with references := l₁ } =
        ClassifyAsset { a with references := l₂ }) ∧
    (∀ (assets : List AssetFile) (m₁ m₂ : List (String × List Reference)),
      m₁.Perm m₂ →
      (∀ a ∈ assets, (m₁.filter (fun kv => matchesAssetPath a kv.1)).length ≤ 1) →
      ClassifyAssets (MatchReferencesToAssets assets m₁) =
        ClassifyAssets (MatchReferencesToAssets assets m₂)) := by
  constructor
  · intro a l₁ l₂ hp
    unfold ClassifyAsset
    simp only [foldl_classifyStep]
    rw [hp.length_eq, perm_any_eq (fun r => !r.isComment) hp,
        perm_all_eq (fun r => r.isComment) hp,
        perm_any_eq (fun r => r.isDynamic) hp]
  · intro assets m₁ m₂ hp hs
    unfold ClassifyAssets MatchReferencesToAssets
    rw [List.map_map, List.map_map]
    apply List.map_congr_left
    intro a ha
    have : attachRefs a m₁ = attachRefs a m₂ := by
      unfold attachRefs
      rw [find?_perm_of_subsingleton _ hp (hs a ha)]
    simp [Function.comp, this]

/-- Witness for `classify_deterministic_cases`: both parts applied at
concrete inputs (a two-element permutation of references, and a one-asset,
one-key map against its own permutation). -/
theorem classify_deterministic_cases_witness :
    (ClassifyAsset { assetFreshW with references := [refComW, refUseW] } =
      ClassifyAsset { assetFreshW with references := [refUseW, refComW] }) ∧
    (ClassifyAssets (MatchReferencesToAssets [assetFreshW] [("l.png", [refUseW])]) =
      ClassifyAssets (MatchReferencesToAssets [assetFreshW] [("l.png", [refUseW])])) :=
  ⟨classify_deterministic_cases.1 assetFreshW _ _ (List.Perm.swap _ _ _),
   classify_deterministic_cases.2 [assetFreshW] _ _ (List.Perm.refl _)
     (by intro a ha; simp at ha; simp [ha]; decide)⟩

/-- Go strings.Split on the path separator: splits a character list at
every slash (adjacent slashes yield empty elements, like Go). -/
def splitSlashChars : List Char → List Char → List (List Char)
  | [], acc => [acc.reverse]
  | '/' :: rest, acc => acc.reverse :: splitSlashChars rest []
  | c :: rest, acc => splitSlashChars rest (c :: acc)

/-- Path elements of a string, split at slashes. -/
def splitSlash (s : String) : List String :=
  (splitSlashChars s.toList []).map (fun l => String.mk l)

/-- The element stack of Go path.Clean: empty and dot elements are
dropped; a dotdot pops a non-dotdot top, is dropped at the top of a rooted
path, and is kept otherwise.  The accumulator holds the output elements in
reverse. -/
def cleanStack (rooted : Bool) (acc : List String) : List String → List String
  | [] => acc
  | c :: rest =>
    if c = "" || c = "." then cleanStack rooted acc rest
    else if c = ".." then
      match acc with
      | top :: accTail =>
          if top = ".." then cleanStack rooted (c :: top :: accTail) rest
          else cleanStack rooted accTail rest
      | [] => if rooted then cleanStack rooted [] rest
              else cleanStack rooted [".."] rest
    else cleanStack rooted (c :: acc) rest

/-- Go filepath.Clean for slash-separated paths: the lexical shortest
equivalent path. -/
def goClean (path : String) : String :=
  let rooted := strStarts path "/"
  let parts := (cleanStack rooted [] (splitSlash path)).reverse
  let body := joinSep "/" parts
  if body = "" then (if rooted then "/" else ".")
  else (if rooted then strCat "/" body else body)

/-- Go filepath.Join: drops empty elements, joins the rest with slashes and
Cleans the result; all-empty input yields the empty string. -/
def goJoin (elems : List String) : String :=
  let nonempty := elems.filter (fun e => e ≠ "")
  if nonempty = [] then "" else goClean (joinSep "/" nonempty)

/-- Helper for goBase: the characters of the last path element, scanning
the reversed string. -/
def lastElemChars (rev : List Char) : List Char :=
  (rev.takeWhile (fun c => c ≠ '/')).reverse

/-- Go filepath.Base: empty path is ".", trailing slashes are dropped, the
last element is returned, an all-slash path is "/". -/
def goBase (path : String) : String :=
  if path = "" then "."
  else
    let stripped := (path.toList.reverse.dropWhile (fun c => c = '/')).reverse
    let last := lastElemChars stripped.reverse
    if last = [] then "/" else String.mk last

/-- Helper for goExt scanning the reversed character list: stop with no
extension at a separator, return the dot-suffix at the first dot. -/
def extAux : List Char → List Char → String
  | [], _ => ""
  | c :: rest, acc =>
    if c = '/' then ""
    else if c = '.' then String.mk ('.' :: acc)
    else extAux rest (c :: acc)

/-- Go filepath.Ext: the suffix of the last element starting at its final
dot, or the empty string. -/
def goExt (path : String) : String :=
  extAux path.toList.reverse []

/-- Go filepath.Rel as invoked by the walkers: every call site passes the
walk root and a clean path that is the root itself or lies below it, for
which Rel returns "." or the suffix after the root.  (Other argument shapes
do not occur in the modelled call sites.) -/
def goRel (root p : String) : String :=
  if p = root then "."
  else if strStarts p (strCat root "/") then strDropN p (strLen root + 1)
  else p

/-- Go path/filepath getEsc: one (possibly backslash-escaped) character of
a character class; fails on a bare dash, a closing bracket, or a class that
exhausts the pattern. -/
def getEsc : List Char → Option (Char × List Char)
  | [] => none
  | '-' :: _ => none
  | ']' :: _ => none
  | '\\' :: rest =>
      match rest with
      | [] => none
      | r :: rest' => if rest' = [] then none else some (r, rest')
  | c :: rest => if rest = [] then none else some (c, rest)

/-- The range loop of Go filepath.Match for a character class: consumes
ranges until the closing bracket, recording whether the examined character
fell in any range; `none` models ErrBadPattern.  The fuel argument bounds
the recursion; callers pass at least the pattern length, which suffices
because every iteration consumes pattern characters. -/
def classLoop : Nat → Char → Bool → Nat → List Char → Option (Bool × List Char)
  | 0, _, _, _, _ => none
  | _ + 1, _, matched, nrange, ']' :: rest =>
      if nrange > 0 then some (matched, rest) else none
  | fuel + 1, r, matched, nrange, chunk =>
      match getEsc chunk with
      | none => none
      | some (lo, chunk1) =>
          match chunk1 with
          | '-' :: c1 =>
              match getEsc c1 with
              | none => none
              | some (hi, chunk2) =>
                  classLoop fuel r (matched || (lo ≤ r && r ≤ hi)) (nrange + 1) chunk2
          | _ => classLoop fuel r (matched || (lo ≤ r && r ≤ lo)) (nrange + 1) chunk1

/-- Go filepath.Match on character lists (fuel-bounded; the fuel passed by
`goMatch` suffices because every recursive call consumes a pattern or name
character).  A star matches any run of non-separator characters, a question
mark one non-separator character, a class one arbitrary character;
malformed patterns fail the match, as Go's (false, ErrBadPattern) does at
the call sites. -/
def goMatchFuel : Nat → List Char → List Char → Bool
  | 0, _, _ => false
  | fuel + 1, p, n =>
    match p with
    | [] => n.isEmpty
    | '*' :: p' =>
        goMatchFuel fuel p' n ||
          (match n with
           | [] => false
           | c :: n' => c ≠ '/' && goMatchFuel fuel p n')
    | '?' :: p' =>
        (match n with
         | [] => false
         | c :: n' => c ≠ '/' && goMatchFuel fuel p' n')
    | '\\' :: pl =>
        (match pl with
         | [] => false
         | e :: p' =>
             match n with
             | [] => false
             | c :: n' => c = e && goMatchFuel fuel p' n')
    | '[' :: pl =>
        (match n with
         | [] => false
         | c :: n' =>
             let negged : Bool × List Char :=
               match pl with
               | '^' :: r => (true, r)
               | _ => (false, pl)
             match classLoop (negged.2.length + 1) c false 0 negged.2 with
             | none => false
             | some (m, rest) => (m ≠ negged.1) && goMatchFuel fuel rest n')
    | pc :: p' =>
        (match n with
         | [] => false
         | c :: n' => c = pc && goMatchFuel fuel p' n')

/-- Go filepath.Match (pattern, name), specialised to the slash separator. -/
def goMatch (pattern name : String) : Bool :=
  goMatchFuel (strLen pattern + strLen name + 1) pattern.toList name.toList

/-- scanner.shouldExcludeDir (internal/scanner/common.go): a directory is
excluded when its basename equals a pattern's basename or its path relative
to the root matches a pattern as a glob. -/
def shouldExcludeDir (path root : String) (excludePatterns : List String) : Bool :=
  let relPath := goRel root path
  excludePatterns.any (fun pat => goBase path == goBase pat || goMatch pat relPath)

/-- models.ProjectType (internal/models). -/
inductive ProjectType
| Unknown
| WebReact
| WebVue
| WebAngular
| WebSvelte
| ReactNative
| Flutter
| IOS
| Android
| Go
| Rust
deriving DecidableEq, Repr

/-- models.ProjectConfig (internal/models/project_config.go); the fields
the scanner, classifier and scan command read. -/
structure ProjectConfig where
  assetPaths : List String
  extensions : List String
  excludePaths : List String
  followSymlinks : Bool
  autoDetectProjectType : Bool
  projectType : ProjectType
deriving DecidableEq, Repr

/-- The filesystem under scan: regular files and directories by absolute
path.  `files` is listed in the lexical depth-first order in which
filepath.WalkDir visits regular files; the model contains no symlinks
(matching the default FollowSymlinks=false with none present). -/
structure Fsys where
  files : List String
  dirs : List String
deriving DecidableEq, Repr

/-- utils.Exists: os.Stat succeeds, for a file or a directory. -/
def fsExists (fs : Fsys) (p : String) : Bool :=
  fs.files.contains p || fs.dirs.contains p

/-- The regular files filepath.WalkDir(dir) visits, in order: dir itself
when it is a regular file, else everything below it. -/
def walkFilesUnder (fs : Fsys) (dir : String) : List String :=
  fs.files.filter (fun f => f == dir || strStarts f (strCat dir "/"))

/-- ReferenceFinder.cleanPath (reference_finder.go): strings.TrimPrefix
with "./", then strings.TrimPrefix with "/". -/
def cleanPath (path : String) : String :=
  let c := if strStarts path "./" then strDropN path 2 else path
  if strStarts c "/" then strDropN c 1 else c

/-- ReferenceFinder.tryExactMatch (reference_finder.go): the root-joined
path when it exists, or — without an existence check — when the cleaned
text ends in a slash (a directory reference); otherwise empty. -/
def tryExactMatch (fs : Fsys) (root cleaned : String) : String :=
  let fullPath := goJoin [root, cleaned]
  if fsExists fs fullPath then fullPath
  else if strEnds cleaned "/" then goJoin [root, cleaned]
  else ""

/-- ReferenceFinder.tryAssetPathMatch (reference_finder.go): for each
configured asset root, the asset-root-joined path when it exists; when the
cleaned text already starts with the asset root, also the join after
stripping that prefix (and one slash). -/
def tryAssetPathMatch (fs : Fsys) (root : String) : List String → String → String
  | [], _ => ""
  | assetPath :: rest, cleaned =>
    let fullPath := goJoin [root, assetPath, cleaned]
    if fsExists fs fullPath then fullPath
    else
      let viaStrip :=
        if strStarts cleaned assetPath then
          let w1 := strDropN cleaned (strLen assetPath)
          let w := if strStarts w1 "/" then strDropN w1 1 else w1
          let fp2 := goJoin [root, assetPath, w]
          if fsExists fs fp2 then fp2 else ""
        else ""
      if viaStrip ≠ "" then viaStrip
      else tryAssetPathMatch fs root rest cleaned

/-- ReferenceFinder.tryBasenameMatch (reference_finder.go): for each
configured asset root that exists, the first walked file whose basename
equals the basename of the cleaned text. -/
def tryBasenameMatch (fs : Fsys) (root : String) : List String → String → String
  | [], _ => ""
  | assetPath :: rest, cleaned =>
    let assetDir := goJoin [root, assetPath]
    if !fsExists fs assetDir then tryBasenameMatch fs root rest cleaned
    else
      match (walkFilesUnder fs assetDir).find?
          (fun f => goBase f == goBase cleaned) with
      | some f => f
      | none => tryBasenameMatch fs root rest cleaned

/-- ReferenceFinder.resolveAssetPath (reference_finder.go): the resolution
ladder, falling back to the cleaned text itself. -/
def resolveAssetPath (fs : Fsys) (root : String) (assetPaths : List String)
    (matched : String) : String :=
  let cleaned := cleanPath matched
  let p1 := tryExactMatch fs root cleaned
  if p1 ≠ "" then p1
  else
    let p2 := tryAssetPathMatch fs root assetPaths cleaned
    if p2 ≠ "" then p2
    else
      let p3 := tryBasenameMatch fs root assetPaths cleaned
      if p3 ≠ "" then p3
      else cleaned

/-- AssetFinder.isAssetFile (asset_finder.go): the extension is in the
configured set. -/
def isAssetFile (extensions : List String) (path : String) : Bool :=
  extensions.any (fun e => goExt path == e)

/-- AssetFinder.createAssetFile (asset_finder.go), restricted to the
fields the engine reads (size, modification time and category are carried
but never consulted by resolution or classification). -/
def mkAssetFile (root p : String) : AssetFile :=
  { path := p, relativePath := goRel root p, name := goBase p,
    extension := goExt p, references := [], refCount := 0,
    status := AssetStatus.Unused }

/-- The chain of directories WalkDir enters on the way to a file: the root
and every intermediate directory, given the root-relative path elements of
the file. -/
def dirChain (root : String) : List String → List String
  | [] => []
  | [_] => [root]
  | c :: rest => root :: dirChain (strCat root (strCat "/" c)) rest

/-- AssetFinder.FindAssets (asset_finder.go): a regular file below the
root becomes an asset when its extension is configured and no directory on
the walk chain from the root to its parent is pruned by
shouldExcludeDir.  (Exclusion is tested on directories only, as in the
source.) -/
def FindAssets (fs : Fsys) (root : String) (cfg : ProjectConfig) : List AssetFile :=
  (fs.files.filter (fun p =>
      strStarts p (strCat root "/")
      && (dirChain root (splitSlash (strDropN p (strLen root + 1)))).all
           (fun d => !shouldExcludeDir d root cfg.excludePaths)
      && isAssetFile cfg.extensions p)).map (mkAssetFile root)

/-- Go string(rune(n)): the one-character string of the code point, or the
replacement character for surrogates and out-of-range values. -/
def goRuneStr (n : Nat) : String :=
  if (55296 ≤ n ∧ n ≤ 57343) ∨ 1114112 ≤ n then "�"
  else String.mk [Char.ofNat n]

/-- The key ReferenceFinder.deduplicateReferences builds for a reference:
filepath.Join of the source file, string(rune(line number)) and the
matched text. -/
def dedupKey (r : Reference) : String :=
  goJoin [r.sourceFile, goRuneStr r.lineNumber, r.matchedText]

/-- The loop of ReferenceFinder.deduplicateReferences with the `seen` map
modelled as the list of keys inserted so far. -/
def dedupAux (seen : List String) : List Reference → List Reference
  | [] => []
  | r :: rest =>
    let key := dedupKey r
    if seen.contains key then dedupAux seen rest
    else r :: dedupAux (key :: seen) rest

/-- ReferenceFinder.deduplicateReferences (unnamed scanner source,
deduplicateReferences). -/
def deduplicateReferences (refs : List Reference) : List Reference :=
  dedupAux [] refs

/-- The empty filesystem, for concrete checks. -/
def fsEmptyW : Fsys := { files := [], dirs := [] }

/-- C6 counterexample: for the captured text "foo/" over an empty
filesystem, no existing file matches anywhere on the ladder, yet resolution
returns the root-joined path "r/foo" — not the normalised textual form
"foo/" — because tryExactMatch returns a trailing-slash reference without
any existence check. -/
theorem resolve_trailing_slash_counterexample :
    resolveAssetPath fsEmptyW "r" [] "foo/" = "r/foo" ∧
    cleanPath "foo/" = "foo/" ∧
    ("r/foo" : String) ≠ "foo/" ∧
    fsExists fsEmptyW "r/foo" = false ∧
    fsExists fsEmptyW (goJoin ["r", cleanPath "foo/"]) = false := by
  refine ⟨by decide, by decide, by decide, by decide, by decide⟩

theorem goClean_ne_empty (p : String) : goClean p ≠ "" := by
  simp only [goClean]
  cases hr : strStarts p "/"
  · split
    · decide
    · rename_i h2
      rw [if_neg (by simp)]
      exact h2
  · split
    · decide
    · rw [if_pos rfl]
      intro hc
      exact absurd (congrArg String.data hc) (by simp [strCat])

/-- C6 amended: the resolution ladder as implemented.  After stripping a
leading "./" and then a leading "/", the first step returns the root-joined
path when it exists (file or directory) and also — without any existence
check — when the cleaned text ends in a slash; otherwise the asset-path
step, then the basename step, are taken in order, and only when all three
produce nothing is the cleaned textual form itself returned. -/
theorem resolveAssetPath_ladder (fs : Fsys) (root : String)
    (assetPaths : List String) (matched : String) (hroot : root ≠ "") :
    (fsExists fs (goJoin [root, cleanPath matched]) = true →
        resolveAssetPath fs root assetPaths matched =
          goJoin [root, cleanPath matched]) ∧
    (fsExists fs (goJoin [root, cleanPath matched]) = false →
      strEnds (cleanPath matched) "/" = true →
        resolveAssetPath fs root assetPaths matched =
          goJoin [root, cleanPath matched]) ∧
    (tryExactMatch fs root (cleanPath matched) = "" →
      tryAssetPathMatch fs root assetPaths (cleanPath matched) ≠ "" →
        resolveAssetPath fs root assetPaths matched =
          tryAssetPathMatch fs root assetPaths (cleanPath matched)) ∧
    (tryExactMatch fs root (cleanPath matched) = "" →
      tryAssetPathMatch fs root assetPaths (cleanPath matched) = "" →
      tryBasenameMatch fs root assetPaths (cleanPath matched) ≠ "" →
        resolveAssetPath fs root assetPaths matched =
          tryBasenameMatch fs root assetPaths (cleanPath matched)) ∧
    (tryExactMatch fs root (cleanPath matched) = "" →
      tryAssetPathMatch fs root assetPaths (cleanPath matched) = "" →
      tryBasenameMatch fs root assetPaths (cleanPath matched) = "" →
        resolveAssetPath fs root assetPaths matched = cleanPath matched) := by
  have hjoin : goJoin [root, cleanPath matched] ≠ "" := by
    unfold goJoin
    have hfil : (([root, cleanPath matched].filter (fun e => e ≠ "")) ≠ []) := by
      simp [List.filter_cons, hroot]
    rcases hf : [root, cleanPath matched].filter (fun e => e ≠ "") with _ | ⟨x, xs⟩
    · exact absurd hf hfil
    · simp [hf, goClean_ne_empty]
  refine ⟨?_, ?_, ?_, ?_, ?_⟩
  · intro hex
    unfold resolveAssetPath tryExactMatch
    simp [hex, hjoin]
  · intro hex hsl
    unfold resolveAssetPath tryExactMatch
    simp [hex, hsl, hjoin]
  · intro hex hap
    unfold resolveAssetPath
    simp [hex, hap]
  · intro hex hap hbn
    unfold resolveAssetPath
    simp [hex, hap, hbn]
  · intro hex hap hbn
    unfold resolveAssetPath
    simp [hex, hap, hbn]

/-- A one-file filesystem, for concrete checks. -/
def fsOneW : Fsys := { files := ["r/a.png"], dirs := ["r"] }

/-- Witness for `resolveAssetPath_ladder`: over a one-file filesystem the
exact-match clause resolves "a.png" to the existing "r/a.png". -/
theorem resolveAssetPath_ladder_witness :
    resolveAssetPath fsOneW "r" [] "a.png" = goJoin ["r", cleanPath "a.png"] :=
  (resolveAssetPath_ladder fsOneW "r" [] "a.png" (by decide)).1 (by decide)

/-- Filesystem with two assets sharing the basename logo.png, in WalkDir
order. -/
def fsBaseW : Fsys :=
  { files := ["r/assets/a/logo.png", "r/assets/b/logo.png"],
    dirs := ["r", "r/assets", "r/assets/a", "r/assets/b"] }

/-- The asset at r/assets/a/logo.png as FindAssets creates it. -/
def assetAW : AssetFile := mkAssetFile "r" "r/assets/a/logo.png"

/-- The asset at r/assets/b/logo.png as FindAssets creates it. -/
def assetBW : AssetFile := mkAssetFile "r" "r/assets/b/logo.png"

/-- The reference capturing the bare basename "logo.png", for concrete
checks. -/
def refBaseW : Reference :=
  { sourceFile := "r/src/main.js", lineNumber := 5, matchedText := "logo.png",
    context := "ctx", type := ReferenceType.StringLiteral, confidence := 80,
    isComment := false, isDynamic := false }

/-- C2 counterexample: the captured text "logo.png" resolves only by
basename (the exact and asset-path steps fail), the walk returns the first
match r/assets/a/logo.png, and after reference-to-asset matching only that
first asset records the reference — the second asset sharing the basename
records nothing. -/
theorem basename_second_asset_not_recorded :
    (assetAW.name = "logo.png" ∧ assetBW.name = "logo.png" ∧ assetAW ≠ assetBW) ∧
    (tryExactMatch fsBaseW "r" (cleanPath "logo.png") = "" ∧
     tryAssetPathMatch fsBaseW "r" ["assets/"] (cleanPath "logo.png") = "" ∧
     resolveAssetPath fsBaseW "r" ["assets/"] "logo.png" = "r/assets/a/logo.png") ∧
    (MatchReferencesToAssets [assetAW, assetBW]
        [("r/assets/a/logo.png", [refBaseW])]).map (fun a => a.references)
      = [[refBaseW], []] := by
  refine ⟨⟨by decide, by decide, by decide⟩, ⟨by decide, by decide, by decide⟩, by decide⟩

/-- C2 amended: the reference group of a resolved key attaches exactly to
the assets that match the key itself.  When the key is the concrete path
found first by the basename walk, an asset that does not match that path
records nothing; both same-basename assets record the group only in the
fallback case where the key is the bare shared basename, which matches each
asset by name. -/
theorem basename_match_attachment (a₁ a₂ : AssetFile) (k : String)
    (rs : List Reference) :
    (matchesAssetPath a₁ k = true → matchesAssetPath a₂ k = false →
      (MatchReferencesToAssets [a₁, a₂] [(k, rs)]).map (fun a => a.references)
        = [a₁.references ++ rs, a₂.references]) ∧
    (a₁.name = k → a₂.name = k →
      (MatchReferencesToAssets [a₁, a₂] [(k, rs)]).map (fun a => a.references)
        = [a₁.references ++ rs, a₂.references ++ rs]) := by
  constructor
  · intro h₁ h₂
    simp [MatchReferencesToAssets, attachRefs, List.find?, h₁, h₂]
  · intro h₁ h₂
    have m₁ : matchesAssetPath a₁ k = true := by
      simp [matchesAssetPath, h₁]
    have m₂ : matchesAssetPath a₂ k = true := by
      simp [matchesAssetPath, h₂]
    simp [MatchReferencesToAssets, attachRefs, List.find?, m₁, m₂]

/-- Witness for `basename_match_attachment`: both parts applied at the
concrete two-asset scenario (key = first basename match, and key = shared
bare basename). -/
theorem basename_match_attachment_witness :
    ((MatchReferencesToAssets [assetAW, assetBW]
        [("r/assets/a/logo.png", [refBaseW])]).map (fun a => a.references)
      = [assetAW.references ++ [refBaseW], assetBW.references]) ∧
    ((MatchReferencesToAssets [assetAW, assetBW]
        [("logo.png", [refBaseW])]).map (fun a => a.references)
      = [assetAW.references ++ [refBaseW], assetBW.references ++ [refBaseW]]) :=
  ⟨(basename_match_attachment assetAW assetBW "r/assets/a/logo.png" [refBaseW]).1
      (by decide) (by decide),
   (basename_match_attachment assetAW assetBW "logo.png" [refBaseW]).2
      (by decide) (by decide)⟩

/-- Filesystem with a single asset directly matched by an exclusion glob. -/
def fsGlobW : Fsys := { files := ["r/foo.png"], dirs := ["r"] }

/-- Configuration whose exclusion pattern names the file foo.png. -/
def cfgGlobW : ProjectConfig :=
  { assetPaths := ["assets/"], extensions := [".png"],
    excludePaths := ["foo.png"], followSymlinks := false,
    autoDetectProjectType := false, projectType := ProjectType.Unknown }

/-- C7 counterexample: with the exclusion pattern "foo.png" in force, the
file r/foo.png — whose root-relative path is matched by that very glob — is
still emitted as an asset, because FindAssets tests exclusion only on
directories. -/
theorem exclusion_glob_file_emitted :
    (FindAssets fsGlobW "r" cfgGlobW).map (fun a => a.path) = ["r/foo.png"] ∧
    goMatch "foo.png" (goRel "r" "r/foo.png") = true := by
  refine ⟨by decide, by decide⟩

/-- C7 amended: exclusion soundness holds for directories: every emitted
asset has a configured extension and none of the directories on the walk
chain from the root to the asset's parent is excluded; files themselves are
never tested against the exclusion patterns. -/
theorem findAssets_prunes_directories (fs : Fsys) (root : String)
    (cfg : ProjectConfig) :
    ∀ a ∈ FindAssets fs root cfg,
      isAssetFile cfg.extensions a.path = true ∧
      ∀ d ∈ dirChain root (splitSlash (strDropN a.path (strLen root + 1))),
        shouldExcludeDir d root cfg.excludePaths = false := by
  intro a ha
  obtain ⟨p, hp, rfl⟩ := List.mem_map.mp ha
  obtain ⟨hmem, hcond⟩ := List.mem_filter.mp hp
  have hpath : (mkAssetFile root p).path = p := rfl
  rw [hpath]
  simp only [Bool.and_eq_true] at hcond
  obtain ⟨⟨hunder, hall⟩, hassety⟩ := hcond
  refine ⟨hassety, ?_⟩
  intro d hd
  have := List.all_eq_true.mp hall d hd
  simpa using this

/-- Witness for `findAssets_prunes_directories` at the concrete
one-asset filesystem. -/
theorem findAssets_prunes_directories_witness :
    isAssetFile cfgGlobW.extensions (mkAssetFile "r" "r/foo.png").path = true ∧
    ∀ d ∈ dirChain "r"
        (splitSlash (strDropN (mkAssetFile "r" "r/foo.png").path (strLen "r" + 1))),
      shouldExcludeDir d "r" cfgGlobW.excludePaths = false :=
  findAssets_prunes_directories fsGlobW "r" cfgGlobW
    (mkAssetFile "r" "r/foo.png") (by decide)

/-- A reference at line 46 of a.js capturing b.png, for concrete checks. -/
def refLine46W : Reference :=
  { sourceFile := "a.js", lineNumber := 46, matchedText := "b.png",
    context := "ctx", type := ReferenceType.StringLiteral, confidence := 80,
    isComment := false, isDynamic := false }

/-- The same reference one line further down, a distinct triple. -/
def refLine47W : Reference := { refLine46W with lineNumber := 47 }

/-- C8: deduplicateReferences keys (file, line, text) through
filepath.Join(file, string(rune(line)), text), and Join cleans the path:
line 46 contributes the element "." and line 47 the element "/", both of
which Clean erases, so two references with distinct triples share the key
"a.js/b.png" and the second is dropped. -/
theorem dedup_drops_distinct_triple :
    (refLine46W.sourceFile = refLine47W.sourceFile ∧
     refLine46W.matchedText = refLine47W.matchedText ∧
     refLine46W.lineNumber ≠ refLine47W.lineNumber) ∧
    dedupKey refLine46W = "a.js/b.png" ∧
    dedupKey refLine47W = "a.js/b.png" ∧
    deduplicateReferences [refLine46W, refLine47W] = [refLine46W] := by
  refine ⟨⟨by decide, by decide, by decide⟩, by decide, by decide, by decide⟩

/-- detector.PackageJSON (asset_finder.go detector part): the dependency
and devDependency names (values are never read). -/
structure PackageJSON where
  dependencies : List String
  devDependencies : List String
deriving DecidableEq, Repr

/-- The outcome of detector.readPackageJSON at the project root: the file
is absent or unreadable, present but malformed (JSON parse failure), or
parsed.  The code treats the first two identically (err != nil). -/
inductive PkgState
| absent
| malformed
| parsed (pkg : PackageJSON)
deriving DecidableEq, Repr

/-- The filesystem markers detector.DetectProjectType inspects at the
project root. -/
structure DetectInput where
  packageJson : PkgState
  pubspecYaml : Bool
  xcodeproj : Bool
  buildGradle : Bool
  buildGradleKts : Bool
  appBuildGradle : Bool
  goMod : Bool
  cargoToml : Bool
deriving DecidableEq, Repr

/-- detector.detectFromPackageJSON: dependency ladder over the union of
both dependency tables. -/
def detectFromPackageJSON (pkg : PackageJSON) : ProjectType :=
  let allDeps := pkg.dependencies ++ pkg.devDependencies
  if allDeps.contains "react-native" then ProjectType.ReactNative
  else if allDeps.contains "react" then ProjectType.WebReact
  else if allDeps.contains "vue" then ProjectType.WebVue
  else if allDeps.contains "@angular/core" then ProjectType.WebAngular
  else if allDeps.contains "svelte" then ProjectType.WebSvelte
  else ProjectType.Unknown

/-- detector.DetectProjectType: the marker ladder.  A package.json that
reads and parses wins; otherwise (absent, unreadable or malformed) the
later markers are consulted in order. -/
def DetectProjectType (i : DetectInput) : ProjectType :=
  match i.packageJson with
  | PkgState.parsed pkg => detectFromPackageJSON pkg
  | _ =>
    if i.pubspecYaml then ProjectType.Flutter
    else if i.xcodeproj then ProjectType.IOS
    else if i.buildGradle || i.buildGradleKts || i.appBuildGradle then
      ProjectType.Android
    else if i.goMod then ProjectType.Go
    else if i.cargoToml then ProjectType.Rust
    else ProjectType.Unknown

/-- A root with a malformed package.json and a pubspec.yaml, for concrete
checks. -/
def detectMalformedFlutterW : DetectInput :=
  { packageJson := PkgState.malformed, pubspecYaml := true,
    xcodeproj := false, buildGradle := false, buildGradleKts := false,
    appBuildGradle := false, goMod := false, cargoToml := false }

/-- C4 counterexample: a malformed package.json does not stop detection at
Unknown; detection falls through to the pubspec.yaml marker and returns
Flutter. -/
theorem detect_malformed_reaches_flutter :
    DetectProjectType detectMalformedFlutterW = ProjectType.Flutter ∧
    ProjectType.Flutter ≠ ProjectType.Unknown := by
  refine ⟨by decide, by decide⟩

/-- C4 amended: a malformed package.json is treated exactly like an absent
one — detection falls through to the later marker checks, and Unknown is
returned only when no later marker matches. -/
theorem detect_malformed_falls_through (i : DetectInput)
    (h : i.packageJson = PkgState.malformed) :
    DetectProjectType i =
      DetectProjectType { i with packageJson := PkgState.absent } ∧
    (i.pubspecYaml = false → i.xcodeproj = false → i.buildGradle = false →
      i.buildGradleKts = false → i.appBuildGradle = false → i.goMod = false →
      i.cargoToml = false → DetectProjectType i = ProjectType.Unknown) := by
  constructor
  · simp [DetectProjectType, h]
  · intro h1 h2 h3 h4 h5 h6 h7
    simp [DetectProjectType, h, h1, h2, h3, h4, h5, h6, h7]

/-- Witness for `detect_malformed_falls_through` at a root whose only
marker is the malformed package.json. -/
theorem detect_malformed_falls_through_witness :
    DetectProjectType { detectMalformedFlutterW with pubspecYaml := false } =
      ProjectType.Unknown :=
  (detect_malformed_falls_through
      { detectMalformedFlutterW with pubspecYaml := false } (by decide)).2
    (by decide) (by decide) (by decide) (by decide) (by decide) (by decide)
    (by decide)

/-- config.DefaultConfig (internal/config/defaults.go). -/
def DefaultConfig : ProjectConfig :=
  { assetPaths := ["assets/", "public/", "static/", "src/assets/"],
    extensions :=
      [".jpg", ".jpeg", ".png", ".gif", ".svg", ".webp", ".ico", ".bmp",
       ".ttf", ".woff", ".woff2", ".eot", ".otf",
       ".mp4", ".webm", ".mov", ".avi", ".mkv",
       ".mp3", ".wav", ".ogg", ".m4a", ".flac"],
    excludePaths :=
      ["node_modules/", "dist/", "build/", ".next/", "target/", "vendor/",
       ".git/", "__pycache__/",
       "android/app/src/main/res/", "android/app/src/main/",
       "ios/Runner/Assets.xcassets/", "ios/Runner/Assets/",
       "ios/", "android/"],
    followSymlinks := false, autoDetectProjectType := true,
    projectType := ProjectType.Unknown }

/-- config.DefaultAssetPathsForProjectType (internal/config/defaults.go),
including the fallback for unknown types. -/
def DefaultAssetPathsForProjectType (pt : ProjectType) : List String :=
  match pt with
  | ProjectType.WebReact => ["public/", "src/assets/", "static/"]
  | ProjectType.WebVue => ["public/", "src/assets/"]
  | ProjectType.WebAngular => ["src/assets/"]
  | ProjectType.WebSvelte => ["static/", "src/assets/"]
  | ProjectType.ReactNative => ["assets/", "src/assets/"]
  | ProjectType.Flutter => ["assets/", "lib/assets/"]
  | ProjectType.IOS => ["Assets.xcassets/", "Resources/"]
  | ProjectType.Android => ["res/drawable/", "res/raw/", "assets/"]
  | ProjectType.Go => ["assets/", "static/", "web/"]
  | ProjectType.Rust => ["assets/", "static/", "resources/"]
  | ProjectType.Unknown => ["assets/", "public/", "static/"]

/-- The list-valued fields of a user configuration file as viper
unmarshals them into a zero ProjectConfig (loader.go): a key absent from
the file leaves the zero value (empty list, false). -/
structure UserConfigFile where
  assetPaths : List String
  extensions : List String
  excludePaths : List String
  autoDetectProjectType : Bool
deriving DecidableEq, Repr

/-- config.LoadConfig (internal/config/loader.go): no file yields the
defaults; a parsed file keeps its values, with the three list fields
defaulted individually when empty. -/
def LoadConfig (file : Option UserConfigFile) : ProjectConfig :=
  match file with
  | none => DefaultConfig
  | some u =>
      { assetPaths :=
          if u.assetPaths = [] then DefaultConfig.assetPaths else u.assetPaths,
        extensions :=
          if u.extensions = [] then DefaultConfig.extensions else u.extensions,
        excludePaths :=
          if u.excludePaths = [] then DefaultConfig.excludePaths
          else u.excludePaths,
        followSymlinks := false,
        autoDetectProjectType := u.autoDetectProjectType,
        projectType := ProjectType.Unknown }

/-- The configuration steps of commands.runScan (scan.go): command-line
flags override extensions and exclusions when non-empty, then — when
auto-detection is enabled and a known project type was detected — the
asset paths are replaced by the project-type defaults. -/
def effectiveScanConfig (cfg : ProjectConfig)
    (flagExtensions flagExclude : List String)
    (detected : ProjectType) : ProjectConfig :=
  let cfg1 :=
    if flagExtensions ≠ [] then { cfg with extensions := flagExtensions }
    else cfg
  let cfg2 :=
    if flagExclude ≠ [] then { cfg1 with excludePaths := flagExclude }
    else cfg1
  if cfg2.autoDetectProjectType && !(detected == ProjectType.Unknown) then
    { cfg2 with assetPaths := DefaultAssetPathsForProjectType detected }
  else cfg2

/-- A user configuration supplying asset paths and enabling
auto-detection, for concrete checks. -/
def userCfgW : UserConfigFile :=
  { assetPaths := ["myassets/"], extensions := [], excludePaths := [],
    autoDetectProjectType := true }

/-- C3 counterexample: a user configuration file supplying the non-empty
asset-path list ["myassets/"] (and auto_detect_project_type: true) loses
its asset paths: once a Flutter project type is detected, runScan replaces
them with the project-type defaults. -/
theorem user_asset_paths_replaced :
    (LoadConfig (some userCfgW)).assetPaths = ["myassets/"] ∧
    (effectiveScanConfig (LoadConfig (some userCfgW)) [] []
        ProjectType.Flutter).assetPaths = ["assets/", "lib/assets/"] ∧
    (["assets/", "lib/assets/"] : List String) ≠ ["myassets/"] := by
  refine ⟨by decide, by decide, by decide⟩

/-- C3 amended: the user's non-empty asset paths survive into the
effective configuration exactly when the replacement branch does not fire:
when the loaded configuration has auto-detection disabled, or the detected
project type is Unknown. -/
theorem user_asset_paths_kept_cases (u : UserConfigFile)
    (fe fx : List String) (d : ProjectType)
    (hne : u.assetPaths ≠ [])
    (h : u.autoDetectProjectType = false ∨ d = ProjectType.Unknown) :
    (effectiveScanConfig (LoadConfig (some u)) fe fx d).assetPaths =
      u.assetPaths := by
  have hload : (LoadConfig (some u)).assetPaths = u.assetPaths := by
    simp [LoadConfig, hne]
  have hauto : (LoadConfig (some u)).autoDetectProjectType =
      u.autoDetectProjectType := rfl
  unfold effectiveScanConfig
  rcases h with h | h <;>
    split <;> split <;>
    simp_all [LoadConfig, hne]

/-- Witness for `user_asset_paths_kept_cases`: with auto-detection off the
user's asset paths survive. -/
theorem user_asset_paths_kept_cases_witness :
    (effectiveScanConfig
        (LoadConfig (some { userCfgW with autoDetectProjectType := false }))
        [] [] ProjectType.Flutter).assetPaths =
      ({ userCfgW with autoDetectProjectType := false} : UserConfigFile).assetPaths :=
  user_asset_paths_kept_cases _ [] [] ProjectType.Flutter (by decide)
    (Or.inl (by decide))

/-- The RE2 \s character class used in the harvester's regexes (space,
tab, newline, form feed, carriage return). -/
def isRegexSpace (c : Char) : Bool :=
  c = '\t' || c = '\n' || c = '\x0c' || c = '\r' || c = ' '

/-- The extension alternation of RequirePattern
(internal/parser/patterns.go). -/
def requireExts : List String :=
  ["jpg", "jpeg", "png", "gif", "svg", "webp", "ttf", "woff", "woff2",
   "mp4", "mp3"]

/-- Whether a quoted run satisfies the capture group `[^'"]+\.(jpg|…)`
exactly up to the closing quote: it ends in a dot and a listed extension,
with at least one character before the dot. -/
def endsInRequireExt (run : List Char) : Bool :=
  requireExts.any (fun e =>
    decide (e.toList.length + 1 < run.length) &&
      ('.' :: e.toList).isSuffixOf run)

/-- The quote alternatives of the `['"]` classes. -/
def isQuoteChar (c : Char) : Bool :=
  c = '\'' || c = '"'

/-- The tail of RequirePattern after the literal "require":
the source pattern reads `require\s*\(\s*['"]([^'"]+\.(…))['"]\ s*\)` with
an escaped SPACE before `s*\)`, so after the closing quote the regex
demands one literal space, then a run of the letter s, then the closing
parenthesis.  Returns the captured group when the fragment matches here. -/
def requireTail (cs : List Char) : Option (List Char) :=
  match cs.dropWhile isRegexSpace with
  | '(' :: cs1 =>
    match cs1.dropWhile isRegexSpace with
    | q :: cs2 =>
      if isQuoteChar q then
        let run := cs2.takeWhile (fun c => !isQuoteChar c)
        let rest := cs2.dropWhile (fun c => !isQuoteChar c)
        if endsInRequireExt run then
          match rest with
          | q2 :: ' ' :: rest2 =>
            if isQuoteChar q2 then
              match rest2.dropWhile (fun c => c = 's') with
              | ')' :: _ => some run
              | _ => none
            else none
          | _ => none
        else none
      else none
    | [] => none
  | _ => none

/-- FindAllStringSubmatch for RequirePattern, modelled as trying the
fragment at every occurrence of the literal "require"; returns the first
capture. -/
def requireFind : List Char → Option (List Char)
  | [] => none
  | l@(_ :: rest) =>
    match (if "require".toList.isPrefixOf l then requireTail (l.drop 7)
           else none) with
    | some cap => some cap
    | none => requireFind rest

/-- The capture of RequirePattern on a source line. -/
def requireCapture (line : String) : Option String :=
  (requireFind line.toList).map (fun l => String.mk l)

/-- The ASCII characters unicode.IsSpace recognises, for TrimSpace. -/
def isGoSpace (c : Char) : Bool :=
  c = ' ' || c = '\t' || c = '\n' || c = '\r' || c = '\x0b' || c = '\x0c'

/-- Go strings.TrimSpace (ASCII model). -/
def goTrimSpace (s : String) : String :=
  String.mk (((s.toList.dropWhile isGoSpace).reverse.dropWhile isGoSpace).reverse)

/-- Substring occurrence on character lists. -/
def listHasInfix (sub : List Char) : List Char → Bool
  | [] => sub.isEmpty
  | l@(_ :: rest) => sub.isPrefixOf l || listHasInfix sub rest

/-- Go strings.Contains. -/
def containsSub (s sub : String) : Bool :=
  listHasInfix sub.toList s.toList

/-- ReferenceFinder.isCommentLine (reference_finder.go). -/
def isCommentLine (line : String) : Bool :=
  let t := goTrimSpace line
  strStarts t "//" || strStarts t "#" || strStarts t "/*"
    || strStarts t "*" || strStarts t "<!--"

/-- ReferenceFinder.isDynamicReference (reference_finder.go). -/
def isDynamicReference (line : String) : Bool :=
  containsSub line "+" || containsSub line "$\x7b"
    || containsSub line "concat" || containsSub line "join"

/-- The references the Require rule of GetAllPatterns (kind Import,
confidence 1.0) emits for one line in scanFile, with the per-line comment
and dynamic flags; at most one match per line is modelled, which is exact
for the inputs below. -/
def requireRuleRefs (file : String) (lineNo : Nat) (line : String) :
    List Reference :=
  match requireCapture line with
  | some cap =>
      [{ sourceFile := file, lineNumber := lineNo, matchedText := cap,
         context := goTrimSpace line, type := ReferenceType.Import,
         confidence := 100, isComment := isCommentLine line,
         isDynamic := isDynamicReference line }]
  | none => []

/-- C5: because of the escaped space in RequirePattern (`\ s*\)` instead
of `\s*\)`), a plain require call with no extra spacing does not match the
Require rule at all, so no Import reference with confidence 1.0 is emitted
for it; a space before the closing parenthesis makes the same call
match. -/
theorem requirePattern_spacing_bug :
    requireRuleRefs "r/src/app.js" 1 "const logo = require(\"./logo.png\")"
      = [] ∧
    requireCapture "const logo = require(\"./logo.png\")" = none ∧
    requireCapture "require(\"./logo.png\" )" = some "./logo.png" ∧
    (requireRuleRefs "r/src/app.js" 1 "require(\"./logo.png\" )").map
        (fun r => (r.type, r.confidence, r.matchedText))
      = [(ReferenceType.Import, 100, "./logo.png")] := by
  refine ⟨by decide, by decide, by decide, by decide⟩

end EasyClean
